import Mathlib

/-!
# Verification of the job-card extraction engine

A shallow embedding of `job_card_extractor.py` (barcode sanitization, name
cleanup, job-number resolution, operation extraction, area building and the
PDF pipeline control flow), together with theorems settling the spec claims.

Python strings are modelled as Lean `String` (with most work done on the
underlying `List Char`); Python's `dict` is modelled as an insertion-ordered
association list; Python exceptions are modelled with `Except`.  Character
classes (`str.isalnum`, `\s`, `\d`) are modelled over their ASCII fragment,
which covers every value the program manipulates.
-/

namespace JobCard

/-- ASCII fragment of Python's `\s` class (`str.strip` default set). -/
def pyWs (c : Char) : Bool :=
  c == ' ' || c == '\t' || c == '\n' || c == '\r' || c == '\x0b' || c == '\x0c'

/-- ASCII decimal digit, Python's `\d` / `str.isdigit` on the values in play. -/
def isDigitC (c : Char) : Bool := c.isDigit

/-- Python `s.strip()` on the character list: drop leading and trailing whitespace. -/
def pyStripL (l : List Char) : List Char :=
  ((l.dropWhile pyWs).reverse.dropWhile pyWs).reverse

/-- Python `s.strip()`. -/
def pyStrip (s : String) : String := ⟨pyStripL s.data⟩

/-- Python `s.split(c)` (single-character separator). -/
def splitCh (c : Char) : List Char → List (List Char)
  | [] => [[]]
  | x :: xs =>
    match splitCh c xs with
    | [] => [[]]
    | h :: t => if x == c then [] :: h :: t else (x :: h) :: t

/-- Does `pat` occur as a prefix of `l`? -/
def isPrefixL : List Char → List Char → Bool
  | [], _ => true
  | _ :: _, [] => false
  | a :: as, b :: bs => a == b && isPrefixL as bs

/-- Python's `pat in l` substring test. -/
def containsL (pat : List Char) : List Char → Bool
  | [] => isPrefixL pat []
  | l@(_ :: xs) => isPrefixL pat l || containsL pat xs

/-- Numeric value of a digit list read in base 10. -/
def digitsToNat (l : List Char) : Nat :=
  l.foldl (fun n c => 10 * n + (c.toNat - 48)) 0

/-- ASCII fragment of Python's `str.isalnum` (per-character). -/
def pyIsAlnum (c : Char) : Bool := c.isAlpha || c.isDigit

/-- Model of `clean_barcode_value`: keep only alphanumeric characters
(`''.join(c for c in s if c.isalnum())`). -/
def clean_barcode_value (s : String) : String := ⟨s.data.filter pyIsAlnum⟩

/-! ## Name cleanup (`clean_operation_name`)

The Python function applies, in order, `re.sub(pat, '', name)` for
`^(?:20\d\d\s+)`, then three "scan instruction" patterns, then `strip()`.
Each scan pattern ends in `.*$`, so on the newline-free names the extractor
produces, a substitution amounts to cutting the string at the leftmost
position where the pattern matches through to the end.  We compile each
regex to a deterministic matcher (greedy subpatterns here never need
backtracking into a shorter match, since every token boundary separates a
digit/letter from whitespace or a distinct literal). -/

/-- Model of `re.sub(r'^(?:20\d\d\s+)', '', s)`: drop a leading `20dd` year token and
the (maximal) whitespace run after it.  The identical subpattern
`(?:20\d\d\s+)?` also appears in the per-line operation regex. -/
def dropYearToken (l : List Char) : List Char :=
  match l with
  | '2' :: '0' :: d1 :: d2 :: rest =>
    if isDigitC d1 && isDigitC d2 then
      let ws := rest.takeWhile pyWs
      if ws.isEmpty then l else rest.drop ws.length
    else l
  | _ => l

/-- Consume the exact literal `p` from the front of a list. -/
def dropLit : List Char → List Char → Option (List Char)
  | [], l => some l
  | p :: ps, c :: cs => if c == p then dropLit ps cs else none
  | _ :: _, [] => none

/-- Consume a nonempty (maximal) whitespace run, Python's `\s+`. -/
def dropWsPlus (l : List Char) : Option (List Char) :=
  let ws := l.takeWhile pyWs
  if ws.isEmpty then none else some (l.drop ws.length)

/-- Drop trailing whitespace. -/
def dropTrailingWs (l : List Char) : List Char :=
  (l.reverse.dropWhile pyWs).reverse

/-- Does `[sS]can` match at the head of `l`? -/
def scanTokAt : List Char → Bool
  | c :: 'c' :: 'a' :: 'n' :: _ => c == 's' || c == 'S'
  | _ => false

/-- Core of pattern 1, matching at the head of `l`:
`[sS]can\s+barcodes\s+(?:t[o0]\s+|to\s+)?start\s+job\s+operation` (the
trailing `.*$` accepts the remainder).  The optional `to`-group starts with
`t` while `start` starts with `s`, so committing to the group when it
matches is equivalent to the regex's backtracking. -/
def core1At (l : List Char) : Bool :=
  match l with
  | c :: rest =>
    (c == 's' || c == 'S') &&
    (match dropLit "can".data rest with
     | none => false
     | some r1 =>
       match dropWsPlus r1 with
       | none => false
       | some r2 =>
         match dropLit "barcodes".data r2 with
         | none => false
         | some r3 =>
           match dropWsPlus r3 with
           | none => false
           | some r4 =>
             let r5 :=
               match r4 with
               | 't' :: o :: rr =>
                 if o == 'o' || o == '0' then
                   match dropWsPlus rr with
                   | some r6 => r6
                   | none => r4
                 else r4
               | _ => r4
             match dropLit "start".data r5 with
             | none => false
             | some r7 =>
               match dropWsPlus r7 with
               | none => false
               | some r8 =>
                 match dropLit "job".data r8 with
                 | none => false
                 | some r9 =>
                   match dropWsPlus r9 with
                   | none => false
                   | some r10 => (dropLit "operation".data r10).isSome)
  | [] => false

/-- Core of pattern 2, matching at the head of `l`:
`[sS]can-barcodes-(?:t[o0]|to)-start-job\s+operation` (alternative `to` is
subsumed by `t[o0]`). -/
def core2At (l : List Char) : Bool :=
  match l with
  | c :: rest =>
    (c == 's' || c == 'S') &&
    (match dropLit "can-barcodes-".data rest with
     | none => false
     | some r1 =>
       match r1 with
       | 't' :: o :: r2 =>
         (o == 'o' || o == '0') &&
         (match dropLit "-start-job".data r2 with
          | none => false
          | some r3 =>
            match dropWsPlus r3 with
            | none => false
            | some r4 => (dropLit "operation".data r4).isSome)
       | _ => false)
  | [] => false

/-- Index of the first suffix of `l` at which `core` matches. -/
def findCore (core : List Char → Bool) : List Char → Option Nat
  | [] => if core [] then some 0 else none
  | l@(_ :: xs) => if core l then some 0 else (findCore core xs).map (· + 1)

/-- Model of `re.sub(r'\s*[sS]can\s+barcodes\s+(?:t[o0]\s+|to\s+)?start\s+job\s+operation.*$', '', s)`
on newline-free input: cut at the first core occurrence, extended left over
`\s*`. -/
def sub1 (l : List Char) : List Char :=
  match findCore core1At l with
  | none => l
  | some p => dropTrailingWs (l.take p)

/-- Model of `re.sub(r'\s*~?[sS]can-barcodes-(?:t[o0]|to)-start-job\s+operation.*$', '', s)`
on newline-free input: cut at the first core occurrence, extended left over
`~?` then `\s*`. -/
def sub2 (l : List Char) : List Char :=
  match findCore core2At l with
  | none => l
  | some p =>
    let pre := l.take p
    dropTrailingWs (if pre.getLast? == some '~' then pre.dropLast else pre)

/-- Model of `re.sub(r'\s*~?\s*[sS]can.*$', '', s)` on newline-free input: cut at the
first `[sS]can` token, extended left over `\s*` then `~?` then `\s*`. -/
def sub3 (l : List Char) : List Char :=
  match findCore scanTokAt l with
  | none => l
  | some p =>
    let pre := dropTrailingWs (l.take p)
    if pre.getLast? == some '~' then dropTrailingWs pre.dropLast else pre

/-- Model of `clean_operation_name`: year-prefix removal, the three scan-instruction
substitutions in order, then `strip()`. -/
def clean_operation_name (s : String) : String :=
  ⟨pyStripL (sub3 (sub2 (sub1 (dropYearToken s.data))))⟩

/-! ## Data model -/

/-- One decoded barcode observation (`detect_barcodes` output record):
`{'type': ..., 'barcode': ..., 'rect': ...}`. -/
structure Barcode where
  btype : String
  barcode : String
  rect : List Int
deriving DecidableEq

/-- One horizontal band of a page (`process_page` area record). -/
structure Area where
  page : Nat
  area_index : Nat
  bbox : Nat × Nat
  ocr_text : String
  barcodes : List Barcode
deriving DecidableEq

/-- One extracted operation (`extract_operations` value record). -/
structure Op where
  op_number : String
  op_name : String
  op_id : String
  page : Nat
deriving DecidableEq

/-- Final structured record of `extract_job_and_operations`. -/
structure ExtractionResult where
  job_number : String
  operations : List Op
deriving DecidableEq

/-! ## Operation discovery (`extract_operations`, pass 1)

The two regexes are compiled to deterministic matchers.  Both have the shape
"optional `Operation` label, number `\d+(?:\.\d+)?`, mandatory whitespace,
remainder"; greedy maximal munch is faithful because a shorter digit (or
whitespace) run is always followed by another digit (whitespace), never by
the character class the next token requires. -/

/-- Match `(\d+(?:\.\d+)?)` at the head: the maximal digit run, extended by
`.` plus a nonempty digit run when present.  Returns token and remainder. -/
def numToken (l : List Char) : Option (List Char × List Char) :=
  let ds := l.takeWhile isDigitC
  if ds.isEmpty then none
  else
    let rest := l.drop ds.length
    match rest with
    | '.' :: r2 =>
      let fs := r2.takeWhile isDigitC
      if fs.isEmpty then some (ds, rest)
      else some (ds ++ '.' :: fs, r2.drop fs.length)
    | _ => some (ds, rest)

/-- Match the optional label `(?:Operation\s+)?`: the literal then a
nonempty whitespace run. -/
def tryLabel (l : List Char) : Option (List Char) :=
  match dropLit "Operation".data l with
  | none => none
  | some r => dropWsPlus r

/-- Number token followed by a mandatory whitespace run; returns the token
and the remainder after the maximal run. -/
def numThenWs (l : List Char) : Option (List Char × List Char) :=
  match numToken l with
  | none => none
  | some (num, rest) =>
    match dropWsPlus rest with
    | none => none
    | some r => some (num, r)

/-- Model of `re.match(r'^(?:Operation\s+)?(\d+(?:\.\d+)?)\s*[\n\s]+(.+)', t, re.DOTALL)`:
number then at least one whitespace character then a nonempty remainder
(group 2, which under DOTALL is everything after the consumed whitespace).
When all remaining characters are whitespace the greedy run backs off one
character so `.+` can take it.  If the label variant fails the regex retries
without the optional group. -/
def multilineMatch (l : List Char) : Option (List Char × List Char) :=
  let core := fun (l' : List Char) =>
    match numToken l' with
    | none => none
    | some (num, rest) =>
      let ws := rest.takeWhile pyWs
      if ws.isEmpty then none
      else
        let r2 := rest.drop ws.length
        if r2.isEmpty then
          if 2 ≤ ws.length then some (num, rest.drop (ws.length - 1)) else none
        else some (num, r2)
  match tryLabel l with
  | some l2 => (core l2).orElse (fun _ => core l)
  | none => core l

/-- Model of `re.match(r'^(?:Operation\s+)?(\d+(?:\.\d+)?)\s+(?:20\d\d\s+)?(.*)$', line)`
on a newline-free line: number, mandatory whitespace, optional year token,
rest as group 2. -/
def lineMatch (l : List Char) : Option (List Char × List Char) :=
  let core := fun (l' : List Char) =>
    match numThenWs l' with
    | none => none
    | some (num, rest) => some (num, dropYearToken rest)
  match tryLabel l with
  | some l2 => (core l2).orElse (fun _ => core l)
  | none => core l

/-- Model of `int(float(op_number))` for a token matching `\d+(?:\.\d+)?`: truncation
to the integer part (exact at the magnitudes the range check concerns). -/
def intPartOfNum (s : String) : Nat := digitsToNat (s.data.takeWhile isDigitC)

/-- Constant `MAX_OP_NUMBER`. -/
def MAX_OP_NUMBER : Nat := 1000

/-- The insertion-ordered `operations_dict`; every stored value carries its
key in its `op_number` field, as in the source. -/
abbrev OpsDict := List Op

/-- Membership test `op_number in operations_dict`. -/
def hasKey (d : OpsDict) (k : String) : Bool := d.any (fun o => o.op_number == k)

/-- Model of `group(2).strip().split('\n')[0].strip()` of the multiline match. -/
def headLineStrip (rest : List Char) : List Char :=
  pyStripL ((splitCh '\n' (pyStripL rest)).headD [])

/-- The multiline branch of pass 1: on a match, validate the range and
insert a fresh operation (empty tracking code) when the key is new. -/
def procMulti (a : Area) (t : List Char) (d : OpsDict) : OpsDict :=
  match multilineMatch t with
  | none => d
  | some (num, rest) =>
    let numS : String := ⟨num⟩
    if intPartOfNum numS ≤ MAX_OP_NUMBER && !hasKey d numS then
      d ++ [⟨numS, clean_operation_name ⟨headLineStrip rest⟩, "", a.page⟩]
    else d

/-- The per-line branch of pass 1 for a single (stripped) line. -/
def procLine (a : Area) (d : OpsDict) (line0 : List Char) : OpsDict :=
  let line := pyStripL line0
  match lineMatch line with
  | none => d
  | some (num, name) =>
    let numS : String := ⟨num⟩
    if MAX_OP_NUMBER < intPartOfNum numS then d
    else
      let cleaned := clean_operation_name ⟨name⟩
      if hasKey d numS then d else d ++ [⟨numS, cleaned, "", a.page⟩]

/-- Pass-1 text processing for one area (the area's stripped text is known
to be nonempty): multiline branch first, then every line. -/
def procAreaOps (d : OpsDict) (a : Area) (t : List Char) : OpsDict :=
  (splitCh '\n' t).foldl (procLine a) (procMulti a t d)

/-! ## Barcode collection (`barcodes_by_op_number`)

A single Python dict whose keys are either digit strings (Q-suffixes) or
page numbers (ints), and whose values are correspondingly a barcode value or
a list of them.  String and int keys never compare equal in Python, matching
the `Sum` discrimination. -/

abbrev BKey := Sum String Nat
abbrev BVal := Sum String (List String)
abbrev BDict := List (BKey × BVal)

/-- Dict assignment `d[k] = v`: replace in place when the key exists, else append. -/
def dictSet (d : BDict) (k : BKey) (v : BVal) : BDict :=
  match d with
  | [] => [(k, v)]
  | (k', v') :: t => if k' = k then (k, v) :: t else (k', v') :: dictSet t k v

/-- Membership test `k in d`. -/
def bHasKey (d : BDict) (k : BKey) : Bool := d.any (fun e => e.1 = k)

/-- Lookup `d[k]` as an option. -/
def bLookup (d : BDict) (k : BKey) : Option BVal :=
  match d with
  | [] => none
  | (k', v) :: t => if k' = k then some v else bLookup t k

/-- List append `d[k].append(v)`: the entry exists and holds a list whenever this is
reached (it is guarded by a membership check inserting `[]`). -/
def bAppend (d : BDict) (k : BKey) (v : String) : BDict :=
  d.map (fun e =>
    if e.1 = k then
      (e.1, match e.2 with
            | Sum.inr l => Sum.inr (l ++ [v])
            | x => x)
    else e)

/-- Prefix test `v.startswith('J')`. -/
def startsWithJ (l : List Char) : Bool :=
  match l with
  | 'J' :: _ => true
  | _ => false

/-- Model of `re.search(r'Q(\d+)$', v)`: the trailing maximal digit run when it is
nonempty and preceded by a literal `Q` (the leftmost `$`-anchored match is
exactly the last such `Q`). -/
def qSuffix (l : List Char) : Option (List Char) :=
  let r := l.reverse
  let ds := r.takeWhile isDigitC
  if ds.isEmpty then none
  else
    match r.drop ds.length with
    | 'Q' :: _ => some ds.reverse
    | _ => none

/-- Version of `qSuffix` on strings. -/
def qSuffixS (v : String) : Option String := (qSuffix v.data).map fun l => ⟨l⟩

/-- Pass-1 barcode processing for one barcode value of an area on `page`:
J-prefixed values are indexed by Q-suffix (last write wins) and appended to
the page's fallback pool. -/
def procBarcode (page : Nat) (b : BDict) (v : String) : BDict :=
  if startsWithJ v.data then
    let b1 :=
      match qSuffixS v with
      | some ds => dictSet b (Sum.inl ds) (Sum.inl v)
      | none => b
    let b2 := if bHasKey b1 (Sum.inr page) then b1 else dictSet b1 (Sum.inr page) (Sum.inr [])
    bAppend b2 (Sum.inr page) v
  else b

/-- Pass-1 barcode processing for a whole area (`if barcodes:` followed by
the loop is the same as folding over the list). -/
def procAreaB (b : BDict) (a : Area) : BDict :=
  a.barcodes.foldl (fun b bc => procBarcode a.page b bc.barcode) b

/-- One iteration of the pass-1 area loop: an area whose stripped text is
empty is skipped entirely (`continue`), including its barcodes. -/
def procArea (s : OpsDict × BDict) (a : Area) : OpsDict × BDict :=
  let t := pyStripL a.ocr_text.data
  if t.isEmpty then s
  else (procAreaOps s.1 a t, procAreaB s.2 a)

/-! ## Pass 2 and final ordering -/

/-- Model of `str.isdigit` (nonempty, all digits). -/
def pyIsDigitStr (l : List Char) : Bool := !l.isEmpty && l.all isDigitC

/-- The fallback loop of pass 2: first entry whose key is a digit string
equal to `k` (string-keyed entries always hold string values; the list
branch is unreachable). -/
def findLoop (b : BDict) (k : String) : Option String :=
  match b with
  | [] => none
  | (Sum.inl s, v) :: t =>
    if pyIsDigitStr s.data && k == s then
      match v with
      | Sum.inl vs => some vs
      | Sum.inr _ => none
    else findLoop t k
  | (Sum.inr _, _) :: t => findLoop t k

/-- Pass 2 for one operation: direct dict lookup by the operation number,
then the fallback loop. -/
def assignId (b : BDict) (o : Op) : Op :=
  match bLookup b (Sum.inl o.op_number) with
  | some (Sum.inl v) => { o with op_id := v }
  | some (Sum.inr _) => o
  | none =>
    match findLoop b o.op_number with
    | some v => { o with op_id := v }
    | none => o

/-- Pass 2 over the whole dict. -/
def pass2 (d : OpsDict) (b : BDict) : OpsDict := d.map (assignId b)

/-- The key order of the final
`sorted(operations_dict.keys(), key=lambda x: int(float(x)))`. -/
def opLe (a b : Op) : Prop :=
  intPartOfNum a.op_number ≤ intPartOfNum b.op_number

instance : DecidableRel opLe := fun _ _ => Nat.decLe _ _

instance : IsTotal Op opLe := ⟨fun _ _ => Nat.le_total _ _⟩

instance : IsTrans Op opLe := ⟨fun _ _ _ => Nat.le_trans⟩

/-- Python's stable `sorted` by `int(float(op_number))`, modelled as stable
insertion sort (which computes the same, unique, stable ascending
reordering). -/
def sortOps (l : List Op) : List Op := l.insertionSort opLe

/-- Model of `extract_operations`: the pass-1 area loop building the two dicts, the
pass-2 tracking-code assignment, and the final stable sort. -/
def extract_operations (areas : List Area) : List Op :=
  let s := areas.foldl procArea ([], [])
  sortOps (pass2 s.1 s.2)

/-! ## Job number resolution (`extract_job_number`) -/

/-- The lexicographic key order of
`sorted(json_data, key=lambda x: (x['page'], x['area_index']))`. -/
def paLe (a b : Area) : Prop :=
  a.page < b.page ∨ (a.page = b.page ∧ a.area_index ≤ b.area_index)

instance : DecidableRel paLe := fun _ _ => inferInstanceAs (Decidable (_ ∨ _))

instance : IsTotal Area paLe := by
  constructor
  intro a b
  rcases Nat.lt_trichotomy a.page b.page with h | h | h
  · exact Or.inl (Or.inl h)
  · rcases Nat.le_total a.area_index b.area_index with h' | h'
    · exact Or.inl (Or.inr ⟨h, h'⟩)
    · exact Or.inr (Or.inr ⟨h.symm, h'⟩)
  · exact Or.inr (Or.inl h)

instance : IsTrans Area paLe := by
  constructor
  intro a b c hab hbc
  rcases hab with h | ⟨he, hi⟩ <;> rcases hbc with h' | ⟨he', hi'⟩
  · exact Or.inl (h.trans h')
  · exact Or.inl (he' ▸ h)
  · exact Or.inl (he ▸ h')
  · exact Or.inr ⟨he.trans he', hi.trans hi'⟩

/-- Python's stable `sorted` by `(page, area_index)`, modelled as stable
insertion sort. -/
def sortPA (l : List Area) : List Area := l.insertionSort paLe

/-- First barcode value `area['barcodes'][0].get('barcode', '')`. -/
def firstBarcodeValue (a : Area) : String :=
  match a.barcodes with
  | b :: _ => b.barcode
  | [] => ""

/-- Label pattern `'Job No'`. -/
def jobNoPat : List Char := "Job No".data

/-- Model of `extract_job_number`: first page-1 area (in sorted order) whose stripped
text contains `Job No` and which has a barcode; else first page-1 area with
a barcode; else the empty string. -/
def extract_job_number (areas : List Area) : String :=
  let sorted := sortPA areas
  match sorted.find? (fun a =>
      a.page == 1 && (containsL jobNoPat (pyStripL a.ocr_text.data) && !a.barcodes.isEmpty)) with
  | some a => firstBarcodeValue a
  | none =>
    match sorted.find? (fun a => a.page == 1 && !a.barcodes.isEmpty) with
    | some a => firstBarcodeValue a
    | none => ""

/-- Model of `extract_job_and_operations`. -/
def extract_job_and_operations (areas : List Area) : ExtractionResult :=
  ⟨extract_job_number areas, extract_operations areas⟩

/-! ## Spec-side job number policy

For the refinement claim about `extract_job_number`, a second definition
following the spec's words: restrict to page-1 areas, iterate in ascending
`area_index` order, prefer the label-anchored area, fall back to the first
area with any barcode, else the empty string. -/

/-- Key order on `area_index` alone. -/
def idxLe (a b : Area) : Prop := a.area_index ≤ b.area_index

instance : DecidableRel idxLe := fun _ _ => Nat.decLe _ _

/-- Stable sort by `area_index`. -/
def sortIdx (l : List Area) : List Area := l.insertionSort idxLe

/-- The job-number policy exactly as the spec states it. -/
def jobNumberSpec (areas : List Area) : String :=
  let p1 := sortIdx (areas.filter (fun a => a.page == 1))
  match p1.find? (fun a =>
      containsL jobNoPat (pyStripL a.ocr_text.data) && !a.barcodes.isEmpty) with
  | some a => firstBarcodeValue a
  | none =>
    match p1.find? (fun a => !a.barcodes.isEmpty) with
    | some a => firstBarcodeValue a
    | none => ""

/-! ## Area building (`process_page`)

The area-assembly loop of `process_page`, with the per-band OCR and barcode
collaborators abstracted as oracles of the band bounds: for each adjacent
boundary pair (indexed by the raw slot position `i`), a band of height below
50 is skipped, otherwise an area record is appended with `area_index: i`. -/

def buildAreas (page_num : Nat) (lines_y : List Nat)
    (ocrF : Nat → Nat → String) (bcF : Nat → Nat → List Barcode) : List Area :=
  ((lines_y.zip lines_y.tail).enum).foldl
    (fun acc iyy =>
      if iyy.2.2 - iyy.2.1 < 50 then acc
      else acc ++ [⟨page_num + 1, iyy.1, (iyy.2.1, iyy.2.2),
                    ocrF iyy.2.1 iyy.2.2, bcF iyy.2.1 iyy.2.2⟩])
    []

/-! ## Pipeline control flow (`extract_areas_from_pdf`, `process_pdf_document`)

The module imports bind the following global names (plus the module-level
defs); `easyocr` is referenced at the `easyocr.Reader(...)` call sites but
is bound by none of them, so evaluating that expression raises `NameError`.
Python exceptions are modelled with `Except`; the external rasterizer is a
collaborator supplying the page list, and the per-page processing that would
follow a successful reader construction is abstracted as an oracle. -/

inductive PyExc
  | fileNotFound
  | nameError
deriving DecidableEq

/-- Names bound at module level in `job_card_extractor.py`: the imports
(`import os`, `import cv2`, `import numpy as np`, `import json`, `import re`,
`import argparse`, `import sys`, `from pathlib import Path`,
`from pdf2image import convert_from_path`, `from PIL import Image`,
`import warnings`, `from pyzbar.pyzbar import decode`), the version string
and the module-level function definitions. -/
def moduleGlobals : List String :=
  ["os", "cv2", "np", "json", "re", "argparse", "sys", "Path",
   "convert_from_path", "Image", "warnings", "decode", "__version__",
   "get_version", "display_version", "clean_barcode_value",
   "detect_horizontal_lines", "detect_barcodes", "preprocess_image_for_ocr",
   "perform_ocr", "create_debug_image", "process_page",
   "extract_areas_from_pdf", "extract_job_number", "clean_operation_name",
   "extract_operations", "extract_job_and_operations",
   "process_pdf_document", "main"]

/-- Evaluating a global name: `NameError` when it is unbound. -/
def resolveName (n : String) : Except PyExc Unit :=
  if n ∈ moduleGlobals then .ok () else .error .nameError

/-- Model of the `extract_areas_from_pdf` control flow: the existence check
(`FileNotFoundError`), the rasterizer call (collaborator `pages`), then
`reader = easyocr.Reader(lang_list)`, whose first step evaluates the global
name `easyocr`.  The page loop that would follow is abstracted by
`pageAreas`. -/
def extract_areas_from_pdf_run {Img : Type} (pathExists : Bool)
    (pages : List Img) (pageAreas : Nat → Img → List Area) :
    Except PyExc (List Area) :=
  if !pathExists then .error .fileNotFound
  else
    match resolveName "easyocr" with
    | .error e => .error e
    | .ok _ => .ok ((pages.enum.map (fun pi => pageAreas pi.1 pi.2)).flatten)

/-- Model of the `process_pdf_document` control flow: extract areas, then run the
extraction stage over them. -/
def process_pdf_document_run {Img : Type} (pathExists : Bool)
    (pages : List Img) (pageAreas : Nat → Img → List Area) :
    Except PyExc ExtractionResult :=
  match extract_areas_from_pdf_run pathExists pages pageAreas with
  | .error e => .error e
  | .ok areas => .ok (extract_job_and_operations areas)

/-! ## Decimal reading of an operation-number token (for the ordering claim) -/

/-- The numeric (decimal-aware) value of a `\d+(?:\.\d+)?` token, in exact
scaled-integer form: `decScaled s = (v, k)` represents the value
`v / 10 ^ k` (integer part and fraction digits combined). -/
def decScaled (s : String) : Nat × Nat :=
  let ds := s.data.takeWhile isDigitC
  let rest := s.data.drop ds.length
  let fs := match rest with
            | '.' :: r => r.takeWhile isDigitC
            | _ => []
  (digitsToNat ds * 10 ^ fs.length + digitsToNat fs, fs.length)

/-- Decimal-aware strict order on number tokens: cross-multiplied
comparison of the exact values. -/
def decimalLt (a b : String) : Prop :=
  (decScaled a).1 * 10 ^ (decScaled b).2 < (decScaled b).1 * 10 ^ (decScaled a).2

instance : DecidableRel decimalLt := fun _ _ => Nat.decLt _ _

/-- Decimal-aware non-strict order (ascending-sortedness relation). -/
def decimalLe (a b : String) : Prop := ¬ decimalLt b a

instance : DecidableRel decimalLe := fun _ _ => instDecidableNot

/-- A concrete area record used in counterexamples and witnesses. -/
def exArea (p i : Nat) (t : String) (bs : List String) : Area :=
  ⟨p, i, (0, 0), t, bs.map (fun v => ⟨"CODE128", v, []⟩)⟩

/-! ## Derived definitions used by the development -/

/-- Text side of one pass-1 area-loop iteration. -/
def procAreaD (d : OpsDict) (a : Area) : OpsDict :=
  let t := pyStripL a.ocr_text.data
  if t.isEmpty then d else procAreaOps d a t

/-- Barcode side of one pass-1 area-loop iteration (with the same
empty-text skip). -/
def procAreaBG (b : BDict) (a : Area) : BDict :=
  let t := pyStripL a.ocr_text.data
  if t.isEmpty then b else procAreaB b a

/-- Invariant of every record inserted during pass 1: the range check
passed and the tracking code is still empty. -/
def OpOk (o : Op) : Prop := intPartOfNum o.op_number ≤ MAX_OP_NUMBER ∧ o.op_id = ""

/-- No two records of the dict share an operation number. -/
def keysNodup (d : OpsDict) : Prop := (d.map Op.op_number).Nodup

/-- Key-based lookup, `operations_dict[k]`. -/
def findOp (d : OpsDict) (k : String) : Option Op :=
  d.find? (fun o => o.op_number == k)

/-- Candidate `(page, value)` pairs in pass-1 scan order: barcodes of areas
whose stripped text is nonempty (the empty-text `continue` skips the rest). -/
def candPairs (areas : List Area) : List (Nat × String) :=
  (areas.filter (fun a => !(pyStripL a.ocr_text.data).isEmpty)).flatMap
    (fun a => a.barcodes.map (fun bc => (a.page, bc.barcode)))

/-- Scanned barcode values, in order. -/
def candValues (areas : List Area) : List String :=
  (candPairs areas).map Prod.snd

/-- Does value `v` associate with operation number `k`: J-prefixed and its
`Q` digit-suffix equals `k` as a string. -/
def matchCand (k : String) (v : String) : Bool :=
  startsWithJ v.data && (qSuffixS v == some k)

/-- The last matching candidate in scan order (Python dict overwrite). -/
def lastCand (vs : List String) (k : String) : Option String :=
  vs.reverse.find? (matchCand k)

/-- One candidate-pair step of the pass-1 barcode loop. -/
def stepPair (b : BDict) (pv : Nat × String) : BDict :=
  procBarcode pv.1 b pv.2

/-! # Theorems

All remaining declarations are theorems: shared infrastructure lemmas and,
for each spec claim, its settling theorem(s). -/

/-! ## Infrastructure: the pass-1 fold splits into independent components -/

theorem procArea_eq (s : OpsDict × BDict) (a : Area) :
    procArea s a = (procAreaD s.1 a, procAreaBG s.2 a) := by
  unfold procArea procAreaD procAreaBG
  by_cases h : (pyStripL a.ocr_text.data).isEmpty <;> simp [h]

theorem foldl_procArea (areas : List Area) (d : OpsDict) (b : BDict) :
    areas.foldl procArea (d, b) =
      (areas.foldl procAreaD d, areas.foldl procAreaBG b) := by
  induction areas generalizing d b with
  | nil => rfl
  | cons a t ih => simp only [List.foldl_cons, procArea_eq, ih]

/-! ## Infrastructure: shape of `operations_dict` after pass 1 -/

theorem procMulti_append (a : Area) (t : List Char) (d : OpsDict) :
    ∃ s, procMulti a t d = d ++ s ∧ ∀ o ∈ s, OpOk o := by
  unfold procMulti
  cases h : multilineMatch t with
  | none => exact ⟨[], by simp [h]⟩
  | some nr =>
    obtain ⟨num, rest⟩ := nr
    by_cases hc :
        (decide (intPartOfNum ⟨num⟩ ≤ MAX_OP_NUMBER) && !hasKey d ⟨num⟩) = true
    · refine ⟨[⟨⟨num⟩, clean_operation_name ⟨headLineStrip rest⟩, "", a.page⟩],
        by simp [h, hc], ?_⟩
      intro o ho
      rcases List.mem_singleton.1 ho with rfl
      exact ⟨of_decide_eq_true (Bool.and_eq_true _ _ ▸ hc).1, rfl⟩
    · exact ⟨[], by simp [h, hc]⟩

theorem procLine_append (a : Area) (d : OpsDict) (line0 : List Char) :
    ∃ s, procLine a d line0 = d ++ s ∧ ∀ o ∈ s, OpOk o := by
  unfold procLine
  cases h : lineMatch (pyStripL line0) with
  | none => exact ⟨[], by simp [h]⟩
  | some nr =>
    obtain ⟨num, name⟩ := nr
    by_cases h1 : MAX_OP_NUMBER < intPartOfNum ⟨num⟩
    · exact ⟨[], by simp [h, h1]⟩
    · by_cases h2 : hasKey d ⟨num⟩ = true
      · exact ⟨[], by simp [h, h1, h2]⟩
      · refine ⟨[⟨⟨num⟩, clean_operation_name ⟨name⟩, "", a.page⟩],
          by simp [h, h1, h2], ?_⟩
        intro o ho
        rcases List.mem_singleton.1 ho with rfl
        exact ⟨Nat.le_of_not_lt h1, rfl⟩

theorem foldl_procLine_append (a : Area) (lines : List (List Char)) (d : OpsDict) :
    ∃ s, lines.foldl (procLine a) d = d ++ s ∧ ∀ o ∈ s, OpOk o := by
  induction lines generalizing d with
  | nil => exact ⟨[], by simp⟩
  | cons x xs ih =>
    obtain ⟨s1, he1, hp1⟩ := procLine_append a d x
    obtain ⟨s2, he2, hp2⟩ := ih (procLine a d x)
    refine ⟨s1 ++ s2, ?_, ?_⟩
    · rw [List.foldl_cons, he2, he1, List.append_assoc]
    · intro o ho
      rcases List.mem_append.1 ho with h | h
      · exact hp1 o h
      · exact hp2 o h

theorem procAreaD_append (d : OpsDict) (a : Area) :
    ∃ s, procAreaD d a = d ++ s ∧ ∀ o ∈ s, OpOk o := by
  unfold procAreaD
  by_cases h : (pyStripL a.ocr_text.data).isEmpty
  · exact ⟨[], by simp [h]⟩
  · simp only [h, if_false, Bool.false_eq_true]
    unfold procAreaOps
    obtain ⟨s1, he1, hp1⟩ := procMulti_append a (pyStripL a.ocr_text.data) d
    obtain ⟨s2, he2, hp2⟩ :=
      foldl_procLine_append a (splitCh '\n' (pyStripL a.ocr_text.data))
        (procMulti a (pyStripL a.ocr_text.data) d)
    refine ⟨s1 ++ s2, ?_, ?_⟩
    · rw [he2, he1, List.append_assoc]
    · intro o ho
      rcases List.mem_append.1 ho with h' | h'
      · exact hp1 o h'
      · exact hp2 o h'

theorem foldl_procAreaD_append (areas : List Area) (d : OpsDict) :
    ∃ s, areas.foldl procAreaD d = d ++ s ∧ ∀ o ∈ s, OpOk o := by
  induction areas generalizing d with
  | nil => exact ⟨[], by simp⟩
  | cons a t ih =>
    obtain ⟨s1, he1, hp1⟩ := procAreaD_append d a
    obtain ⟨s2, he2, hp2⟩ := ih (procAreaD d a)
    refine ⟨s1 ++ s2, ?_, ?_⟩
    · rw [List.foldl_cons, he2, he1, List.append_assoc]
    · intro o ho
      rcases List.mem_append.1 ho with h | h
      · exact hp1 o h
      · exact hp2 o h

/-- Every record of the pass-1 dict satisfies the insertion invariant. -/
theorem opsDict_ok (areas : List Area) :
    ∀ o ∈ areas.foldl procAreaD [], OpOk o := by
  obtain ⟨s, he, hp⟩ := foldl_procAreaD_append areas []
  rw [he]
  simpa using hp

/-! ## Infrastructure: pass 2 only rewrites the tracking code -/

theorem assignId_op_number (b : BDict) (o : Op) :
    (assignId b o).op_number = o.op_number := by
  unfold assignId
  rcases bLookup b (Sum.inl o.op_number) with _ | (v | v)
  · rcases findLoop b o.op_number with _ | w <;> rfl
  · rfl
  · rfl

theorem assignId_op_name (b : BDict) (o : Op) :
    (assignId b o).op_name = o.op_name := by
  unfold assignId
  rcases bLookup b (Sum.inl o.op_number) with _ | (v | v)
  · rcases findLoop b o.op_number with _ | w <;> rfl
  · rfl
  · rfl

theorem assignId_page (b : BDict) (o : Op) :
    (assignId b o).page = o.page := by
  unfold assignId
  rcases bLookup b (Sum.inl o.op_number) with _ | (v | v)
  · rcases findLoop b o.op_number with _ | w <;> rfl
  · rfl
  · rfl

theorem mem_sortOps (o : Op) (l : List Op) : o ∈ sortOps l ↔ o ∈ l :=
  (List.perm_insertionSort opLe l).mem_iff

theorem extract_operations_eq (areas : List Area) :
    extract_operations areas =
      sortOps (pass2 (areas.foldl procAreaD []) (areas.foldl procAreaBG [])) := by
  unfold extract_operations
  rw [foldl_procArea]

theorem mem_extract_operations (areas : List Area) (op : Op) :
    op ∈ extract_operations areas ↔
      ∃ o ∈ areas.foldl procAreaD [],
        op = assignId (areas.foldl procAreaBG []) o := by
  rw [extract_operations_eq, mem_sortOps]
  unfold pass2
  rw [List.mem_map]
  constructor
  · rintro ⟨o, ho, rfl⟩
    exact ⟨o, ho, rfl⟩
  · rintro ⟨o, ho, rfl⟩
    exact ⟨o, ho, rfl⟩

/-- Claim C8: Barcode-value sanitization is idempotent — for every string `x`,
`sanitize(sanitize(x)) == sanitize(x)` — and `sanitize("J-123.45#") = "J12345"`. -/
theorem C8_sanitize_idempotent :
    (∀ s : String,
        clean_barcode_value (clean_barcode_value s) = clean_barcode_value s) ∧
    clean_barcode_value "J-123.45#" = "J12345" := by
  constructor
  · intro s
    simp [clean_barcode_value, List.filter_filter]
  · decide

/-- Claim C9: The full extraction stage on an empty area list returns exactly
`{job_number: "", operations: []}` (all model functions are total, so no
exception can arise); likewise, an area with empty text and no barcodes, or
one whose line parses as no operation, degrades to the same empty result. -/
theorem C9_empty_input :
    extract_job_and_operations [] = ⟨"", []⟩ ∧
    extract_job_and_operations [exArea 1 0 "" []] = ⟨"", []⟩ ∧
    extract_job_and_operations [exArea 1 0 "not an operation" []] = ⟨"", []⟩ := by
  refine ⟨rfl, by decide, by decide⟩

/-- Claim C10: For every existing PDF path, `extract_areas_from_pdf` (and hence
`process_pdf_document`) evaluates the unbound global name `easyocr` and
raises `NameError` before producing any areas. -/
theorem C10_easyocr_unbound (Img : Type) (pages : List Img)
    (pageAreas : Nat → Img → List Area) :
    extract_areas_from_pdf_run true pages pageAreas = .error .nameError ∧
    process_pdf_document_run true pages pageAreas = .error .nameError := by
  constructor <;> rfl

/-- Claim C2, amended: Every Operation emitted by `extract_operations` has
`int(float(op_number)) ≤ 1000` (the code enforces only the upper bound; the
digit-run syntax already gives `0 ≤ n`), so no operation with a matched
number above 1000 (such as `2022`) ever appears in the result. -/
theorem C2_amended_upper_bound (areas : List Area) (op : Op)
    (h : op ∈ extract_operations areas) :
    intPartOfNum op.op_number ≤ 1000 := by
  rcases (mem_extract_operations areas op).1 h with ⟨o, ho, rfl⟩
  rw [assignId_op_number]
  exact (opsDict_ok areas o ho).1

/-- Witness for claim C2 (amended) at a concrete input. -/
theorem C2_witness :
    (⟨"10", "CUTTING", "J12345Q10", 1⟩ : Op) ∈
      extract_operations [exArea 1 0 "Operation 10 CUTTING" ["J12345Q10"]] ∧
    intPartOfNum "10" ≤ 1000 :=
  ⟨by decide,
   C2_amended_upper_bound [exArea 1 0 "Operation 10 CUTTING" ["J12345Q10"]]
     ⟨"10", "CUTTING", "J12345Q10", 1⟩ (by decide)⟩

/-- Claim C4, amended: The list returned by `extract_operations` is sorted
ascending by the truncated integer value `int(float(op_number))` (the
actual sort key), ties of the truncated key keeping discovery order — not
by the decimal-aware numeric value. -/
theorem C4_amended_sorted (areas : List Area) :
    ((extract_operations areas).map
        (fun o => intPartOfNum o.op_number)).Sorted (· ≤ ·) := by
  unfold extract_operations
  rw [List.Sorted, List.pairwise_map]
  exact List.sorted_insertionSort opLe _

/-! ## Infrastructure: key uniqueness and binding persistence in pass 1 -/

theorem hasKey_iff (d : OpsDict) (k : String) :
    hasKey d k = true ↔ k ∈ d.map Op.op_number := by
  simp only [hasKey, List.any_eq_true, beq_iff_eq, List.mem_map]

theorem keysNodup_snoc (d : OpsDict) (o : Op) (hd : keysNodup d)
    (h : ¬ hasKey d o.op_number = true) : keysNodup (d ++ [o]) := by
  unfold keysNodup at *
  rw [List.map_append]
  refine List.nodup_append.2 ⟨hd, List.nodup_singleton _, ?_⟩
  intro x hx hx'
  rcases List.mem_singleton.1 hx' with rfl
  exact h ((hasKey_iff d o.op_number).2 hx)

theorem procMulti_nodup (a : Area) (t : List Char) (d : OpsDict)
    (hd : keysNodup d) : keysNodup (procMulti a t d) := by
  unfold procMulti
  cases h : multilineMatch t with
  | none => simpa only [h] using hd
  | some nr =>
    obtain ⟨num, rest⟩ := nr
    simp only [h]
    by_cases hc :
        (decide (intPartOfNum ⟨num⟩ ≤ MAX_OP_NUMBER) && !hasKey d ⟨num⟩) = true
    · simp only [hc, if_true]
      refine keysNodup_snoc d
        ⟨⟨num⟩, clean_operation_name ⟨headLineStrip rest⟩, "", a.page⟩ hd ?_
      have h2 := (Bool.and_eq_true _ _ ▸ hc).2
      simp only [Bool.not_eq_true'] at h2
      simp [h2]
    · simpa only [hc, if_false, Bool.false_eq_true] using hd

theorem procLine_nodup (a : Area) (d : OpsDict) (line0 : List Char)
    (hd : keysNodup d) : keysNodup (procLine a d line0) := by
  unfold procLine
  cases h : lineMatch (pyStripL line0) with
  | none => simpa only [h] using hd
  | some nr =>
    obtain ⟨num, name⟩ := nr
    simp only [h]
    by_cases h1 : MAX_OP_NUMBER < intPartOfNum ⟨num⟩
    · simpa only [if_pos h1] using hd
    · by_cases h2 : hasKey d ⟨num⟩ = true
      · simpa [h1, h2] using hd
      · simp only [if_neg h1, if_neg h2]
        exact keysNodup_snoc d
          ⟨⟨num⟩, clean_operation_name ⟨name⟩, "", a.page⟩ hd h2

theorem procAreaD_nodup (d : OpsDict) (a : Area) (hd : keysNodup d) :
    keysNodup (procAreaD d a) := by
  unfold procAreaD
  by_cases h : (pyStripL a.ocr_text.data).isEmpty
  · simpa [h] using hd
  · simp only [h, if_false, Bool.false_eq_true]
    unfold procAreaOps
    have hm := procMulti_nodup a (pyStripL a.ocr_text.data) d hd
    generalize procMulti a (pyStripL a.ocr_text.data) d = d1 at hm ⊢
    induction splitCh '\n' (pyStripL a.ocr_text.data) generalizing d1 with
    | nil => exact hm
    | cons x xs ih => exact ih _ (procLine_nodup a d1 x hm)

theorem opsDict_nodup (areas : List Area) :
    keysNodup (areas.foldl procAreaD []) := by
  have base : keysNodup ([] : OpsDict) := List.nodup_nil
  generalize hd : ([] : OpsDict) = d0 at base ⊢
  clear hd
  induction areas generalizing d0 with
  | nil => exact base
  | cons a t ih => exact ih _ (procAreaD_nodup d0 a base)

theorem findOp_persist (areas : List Area) (d : OpsDict) (k : String) (o : Op)
    (h : findOp d k = some o) :
    findOp (areas.foldl procAreaD d) k = some o := by
  obtain ⟨s, he, _⟩ := foldl_procAreaD_append areas d
  rw [he]
  unfold findOp at *
  rw [List.find?_append, h]
  rfl

theorem mem_findOp (d : OpsDict) (o : Op) (hd : keysNodup d) (ho : o ∈ d) :
    findOp d o.op_number = some o := by
  induction d with
  | nil => cases ho
  | cons x xs ih =>
    rcases List.mem_cons.1 ho with rfl | hmem
    · unfold findOp
      rw [List.find?_cons_of_pos]
      exact beq_self_eq_true _
    · have hne : (x.op_number == o.op_number) = false := by
        rw [beq_eq_false_iff_ne]
        intro hxo
        have hd' := (List.nodup_cons.1 hd).1
        exact hd' (hxo ▸ List.mem_map_of_mem Op.op_number hmem)
      unfold findOp
      rw [List.find?_cons_of_neg _ (by simp [hne])]
      exact ih (List.nodup_cons.1 hd).2 hmem

/-- Claim C3: `extract_operations` produces at most one Operation per distinct
`op_number` string, and when the same number is matched again in any later
area the first-seen `op_name` and `page` are kept, never overwritten. -/
theorem C3_dedup_first_seen (l1 l2 : List Area) :
    ((extract_operations l1).map Op.op_number).Nodup ∧
    ∀ op ∈ extract_operations l1, ∀ op' ∈ extract_operations (l1 ++ l2),
      op'.op_number = op.op_number →
        op'.op_name = op.op_name ∧ op'.page = op.page := by
  constructor
  · rw [extract_operations_eq]
    unfold sortOps
    rw [((List.perm_insertionSort opLe _).map Op.op_number).nodup_iff]
    unfold pass2
    rw [List.map_map]
    have hmap : (List.foldl procAreaD [] l1).map
        (Op.op_number ∘ assignId (List.foldl procAreaBG [] l1)) =
          (List.foldl procAreaD [] l1).map Op.op_number :=
      List.map_congr_left (fun o _ => assignId_op_number _ o)
    rw [hmap]
    exact opsDict_nodup l1
  · intro op hop op' hop' hnum
    rcases (mem_extract_operations l1 op).1 hop with ⟨o1, ho1, rfl⟩
    rcases (mem_extract_operations (l1 ++ l2) op').1 hop' with ⟨o2, ho2, rfl⟩
    rw [assignId_op_number, assignId_op_number] at hnum
    have hf1 : findOp (l1.foldl procAreaD []) o1.op_number = some o1 :=
      mem_findOp _ _ (opsDict_nodup l1) ho1
    have hf12 : findOp ((l1 ++ l2).foldl procAreaD []) o1.op_number = some o1 := by
      rw [List.foldl_append]
      exact findOp_persist l2 _ _ _ hf1
    have hf2 : findOp ((l1 ++ l2).foldl procAreaD []) o2.op_number = some o2 :=
      mem_findOp _ _ (opsDict_nodup (l1 ++ l2)) ho2
    rw [hnum, hf12] at hf2
    cases hf2
    rw [assignId_op_name, assignId_op_name, assignId_page, assignId_page]
    exact ⟨rfl, rfl⟩

/-- Witness for claim C3 at a concrete input: the number `10` seen again with
a different name keeps the first-seen name `FIRST`. -/
theorem C3_witness :
    (⟨"10", "FIRST", "", 1⟩ : Op) ∈ extract_operations [exArea 1 0 "10 FIRST" []] ∧
    (⟨"10", "FIRST", "", 1⟩ : Op) ∈
      extract_operations ([exArea 1 0 "10 FIRST" []] ++ [exArea 2 0 "10 SECOND" []]) ∧
    (⟨"10", "FIRST", "", 1⟩ : Op).op_name = "FIRST" :=
  ⟨by decide, by decide,
   ((C3_dedup_first_seen [exArea 1 0 "10 FIRST" []] [exArea 2 0 "10 SECOND" []]).2
     ⟨"10", "FIRST", "", 1⟩ (by decide) ⟨"10", "FIRST", "", 1⟩ (by decide) rfl).1⟩

/-! ## Infrastructure: the barcode dict and pass 2

The value stored under a string (Q-suffix) key is the most recent J-prefixed
candidate with that suffix; the page-keyed pool never affects string-keyed
lookups. -/

theorem bLookup_dictSet_inr (d : BDict) (p : Nat) (x : BVal) (k : String) :
    bLookup (dictSet d (Sum.inr p) x) (Sum.inl k) = bLookup d (Sum.inl k) := by
  induction d with
  | nil => simp [dictSet, bLookup]
  | cons e t ih =>
    obtain ⟨ek, ev⟩ := e
    unfold dictSet
    by_cases he : ek = Sum.inr p
    · rw [if_pos he]
      unfold bLookup
      rw [if_neg (by simp), if_neg (by rw [he]; simp)]
    · rw [if_neg he]
      unfold bLookup
      by_cases h2 : ek = Sum.inl k
      · rw [if_pos h2, if_pos h2]
      · rw [if_neg h2, if_neg h2]
        exact ih

theorem bLookup_bAppend (d : BDict) (p : Nat) (v : String) (k : String) :
    bLookup (bAppend d (Sum.inr p) v) (Sum.inl k) = bLookup d (Sum.inl k) := by
  induction d with
  | nil => rfl
  | cons e t ih =>
    obtain ⟨ek, ev⟩ := e
    show bLookup
      ((if ek = Sum.inr p then (ek, _) else (ek, ev)) :: bAppend t (Sum.inr p) v)
      (Sum.inl k) = _
    by_cases he : ek = Sum.inr p
    · rw [if_pos he]
      unfold bLookup
      rw [if_neg (by rw [he]; simp), if_neg (by rw [he]; simp)]
      exact ih
    · rw [if_neg he]
      unfold bLookup
      by_cases h2 : ek = Sum.inl k
      · rw [if_pos h2, if_pos h2]
      · rw [if_neg h2, if_neg h2]
        exact ih

theorem bLookup_dictSet_inl (d : BDict) (s : String) (v : BVal) (k : String) :
    bLookup (dictSet d (Sum.inl s) v) (Sum.inl k) =
      if s = k then some v else bLookup d (Sum.inl k) := by
  induction d with
  | nil =>
    by_cases h : s = k
    · simp [dictSet, bLookup, h]
    · simp [dictSet, bLookup, h]
  | cons e t ih =>
    obtain ⟨ek, ev⟩ := e
    unfold dictSet
    by_cases he : ek = Sum.inl s
    · rw [if_pos he]
      unfold bLookup
      by_cases hsk : s = k
      · rw [if_pos (by rw [hsk]), if_pos hsk]
      · rw [if_neg (by simp [hsk]), if_neg hsk, if_neg (by rw [he]; simp [hsk])]
    · rw [if_neg he]
      unfold bLookup
      by_cases h2 : ek = Sum.inl k
      · have hsk : ¬ s = k := fun hh => he (by rw [h2, hh])
        rw [if_pos h2, if_neg hsk, if_pos h2]
      · rw [if_neg h2, ih]
        by_cases hsk : s = k
        · rw [if_pos hsk, if_pos hsk]
        · rw [if_neg hsk, if_neg hsk, if_neg h2]

theorem procBarcode_lookup (p : Nat) (b : BDict) (v : String) (k : String) :
    bLookup (procBarcode p b v) (Sum.inl k) =
      if matchCand k v = true then some (Sum.inl v)
      else bLookup b (Sum.inl k) := by
  unfold procBarcode matchCand
  by_cases hj : startsWithJ v.data = true
  · simp only [hj, if_true, Bool.true_and]
    cases hq : qSuffixS v with
    | none =>
      simp only [hq]
      have hb1 : ∀ b1 : BDict,
          bLookup ((if bHasKey b1 (Sum.inr p) = true then b1
            else dictSet b1 (Sum.inr p) (Sum.inr [])) : BDict) (Sum.inl k) =
            bLookup b1 (Sum.inl k) := by
        intro b1
        by_cases hh : bHasKey b1 (Sum.inr p) = true
        · rw [if_pos hh]
        · rw [if_neg hh, bLookup_dictSet_inr]
      rw [bLookup_bAppend, hb1]
      have : ((none : Option String) == some k) = false := rfl
      rw [this, if_neg (by simp)]
    | some ds =>
      simp only [hq]
      have hb1 : ∀ b1 : BDict,
          bLookup ((if bHasKey b1 (Sum.inr p) = true then b1
            else dictSet b1 (Sum.inr p) (Sum.inr [])) : BDict) (Sum.inl k) =
            bLookup b1 (Sum.inl k) := by
        intro b1
        by_cases hh : bHasKey b1 (Sum.inr p) = true
        · rw [if_pos hh]
        · rw [if_neg hh, bLookup_dictSet_inr]
      rw [bLookup_bAppend, hb1, bLookup_dictSet_inl]
      by_cases hdk : ds = k
      · rw [if_pos hdk, if_pos (by rw [hdk]; simp)]
      · rw [if_neg hdk, if_neg (by simp [hdk])]
  · have hj' : startsWithJ v.data = false := by
      cases hcc : startsWithJ v.data
      · rfl
      · exact absurd hcc hj
    simp [hj']

theorem lastCand_cons (v : String) (vs : List String) (k : String) :
    lastCand (v :: vs) k =
      (lastCand vs k).or (if matchCand k v = true then some v else none) := by
  unfold lastCand
  rw [List.reverse_cons, List.find?_append]
  congr 1
  by_cases h : matchCand k v = true
  · simp [h]
  · simp [h]

theorem foldl_stepPair_lookup (pairs : List (Nat × String)) (b : BDict)
    (k : String) :
    bLookup (pairs.foldl stepPair b) (Sum.inl k) =
      match lastCand (pairs.map Prod.snd) k with
      | some v => some (Sum.inl v)
      | none => bLookup b (Sum.inl k) := by
  induction pairs generalizing b with
  | nil => rfl
  | cons pv rest ih =>
    rw [List.foldl_cons, ih, List.map_cons, lastCand_cons]
    cases hl : lastCand (rest.map Prod.snd) k with
    | some w => rfl
    | none =>
      show bLookup (stepPair b pv) (Sum.inl k) = _
      rw [show stepPair b pv = procBarcode pv.1 b pv.2 from rfl,
        procBarcode_lookup]
      by_cases hm : matchCand k pv.2 = true
      · simp [hm]
      · simp [hm]

theorem foldl_procAreaBG_eq (areas : List Area) (b : BDict) :
    areas.foldl procAreaBG b = (candPairs areas).foldl stepPair b := by
  induction areas generalizing b with
  | nil => rfl
  | cons a t ih =>
    rw [List.foldl_cons]
    by_cases h : (pyStripL a.ocr_text.data).isEmpty
    · have hskip : procAreaBG b a = b := by
        unfold procAreaBG
        simp [h]
      have hpairs : candPairs (a :: t) = candPairs t := by
        unfold candPairs
        rw [List.filter_cons_of_neg (by simp [h])]
      rw [hskip, hpairs, ih]
    · have hstep : procAreaBG b a = procAreaB b a := by
        unfold procAreaBG
        simp [h]
      have hpairs : candPairs (a :: t) =
          (a.barcodes.map (fun bc => (a.page, bc.barcode))) ++ candPairs t := by
        unfold candPairs
        rw [List.filter_cons_of_pos (by simp [h]), List.flatMap_cons]
      rw [hstep, hpairs, ih, List.foldl_append]
      congr 1
      unfold procAreaB
      rw [List.foldl_map]
      rfl

theorem bLookup_buildB (areas : List Area) (k : String) :
    bLookup (areas.foldl procAreaBG []) (Sum.inl k) =
      (lastCand (candValues areas) k).map Sum.inl := by
  rw [foldl_procAreaBG_eq, foldl_stepPair_lookup,
    show List.map Prod.snd (candPairs areas) = candValues areas from rfl]
  cases lastCand (candValues areas) k with
  | some v => rfl
  | none => rfl

theorem findLoop_of_lookup_none (b : BDict) (k : String)
    (h : bLookup b (Sum.inl k) = none) : findLoop b k = none := by
  induction b with
  | nil => rfl
  | cons e t ih =>
    obtain ⟨ek, ev⟩ := e
    cases ek with
    | inl s =>
      unfold bLookup at h
      by_cases hs : (Sum.inl s : BKey) = Sum.inl k
      · rw [if_pos hs] at h
        cases h
      · rw [if_neg hs] at h
        have hks : (k == s) = false := by
          rw [beq_eq_false_iff_ne]
          intro hk
          exact hs (by rw [hk])
        unfold findLoop
        rw [hks, Bool.and_false, if_neg (by simp)]
        exact ih h
    | inr p =>
      unfold bLookup at h
      rw [if_neg (by simp)] at h
      unfold findLoop
      exact ih h

/-- Claim C1, amended: Pass 2 scans only the barcodes of areas whose trimmed
OCR text is nonempty (`candValues`); among those, a value is a candidate
only if it begins with `J`.  Every emitted Operation's `op_id` is either a
scanned candidate that begins with `J` and whose trailing `Q` digit-suffix
string-equals the operation's number, or the empty string exactly when no
scanned candidate matches that number — a valid, non-error state. -/
theorem C1_amended_tracking (areas : List Area) (op : Op)
    (h : op ∈ extract_operations areas) :
    (op.op_id ≠ "" →
      startsWithJ op.op_id.data = true ∧ op.op_id ∈ candValues areas ∧
        qSuffixS op.op_id = some op.op_number) ∧
    (op.op_id = "" ↔
      ∀ v ∈ candValues areas, matchCand op.op_number v = false) := by
  rcases (mem_extract_operations areas op).1 h with ⟨o, ho, rfl⟩
  have hid0 : o.op_id = "" := (opsDict_ok areas o ho).2
  have hbb := bLookup_buildB areas o.op_number
  cases hcc : lastCand (candValues areas) o.op_number with
  | none =>
    rw [hcc] at hbb
    have hfl := findLoop_of_lookup_none _ _ hbb
    have hass : assignId (areas.foldl procAreaBG []) o = o := by
      unfold assignId
      rw [hbb, hfl]
      rfl
    rw [hass]
    have hall : ∀ v ∈ candValues areas, matchCand o.op_number v = false := by
      intro v hv
      have hnone : (candValues areas).reverse.find? (matchCand o.op_number) = none := hcc
      have := List.find?_eq_none.1 hnone v (List.mem_reverse.2 hv)
      cases hmc : matchCand o.op_number v
      · rfl
      · exact absurd hmc this
    exact ⟨fun hne => absurd hid0 hne, ⟨fun _ => hall, fun _ => hid0⟩⟩
  | some v =>
    rw [hcc] at hbb
    have hass : assignId (areas.foldl procAreaBG []) o = { o with op_id := v } := by
      unfold assignId
      rw [hbb]
      rfl
    rw [hass]
    have hmc : matchCand o.op_number v = true := List.find?_some hcc
    have hmem : v ∈ candValues areas :=
      List.mem_reverse.1 (List.mem_of_find?_eq_some hcc)
    have hJ : startsWithJ v.data = true := ((Bool.and_eq_true _ _) ▸ hmc).1
    have hqs : qSuffixS v = some o.op_number :=
      eq_of_beq ((Bool.and_eq_true _ _) ▸ hmc).2
    have hvne : v ≠ "" := by
      intro hv
      rw [hv] at hJ
      exact absurd hJ (by decide)
    refine ⟨fun _ => ⟨hJ, hmem, hqs⟩, ⟨fun h0 => absurd h0 hvne, fun hall => ?_⟩⟩
    exact absurd (hall v hmem) (by simp [hmc])

/-- Witness for claim C1 (amended) at a concrete input. -/
theorem C1_witness :
    (⟨"120", "X", "J4440801A0Q120", 1⟩ : Op) ∈
      extract_operations [exArea 1 0 "Operation 120 X" ["J4440801A0Q120"]] ∧
    (startsWithJ ("J4440801A0Q120" : String).data = true ∧
      "J4440801A0Q120" ∈
        candValues [exArea 1 0 "Operation 120 X" ["J4440801A0Q120"]] ∧
      qSuffixS "J4440801A0Q120" = some "120") :=
  ⟨by decide,
   (C1_amended_tracking [exArea 1 0 "Operation 120 X" ["J4440801A0Q120"]]
     ⟨"120", "X", "J4440801A0Q120", 1⟩ (by decide)).1 (by decide)⟩

/-- Claim C1, counterexample: The claim's matching rule fails as stated: an
area with empty OCR text is skipped by the pass-1 `continue` before its
barcodes are collected, so the J-prefixed observation `J1Q120` — whose `Q`
digit-suffix equals the discovered operation number `120` — is never
assigned, and the operation keeps an empty `op_id`. -/
theorem C1_counterexample :
    extract_operations [exArea 1 0 "120 NAME" [], exArea 1 1 "" ["J1Q120"]] =
      [⟨"120", "NAME", "", 1⟩] ∧
    startsWithJ "J1Q120".data = true ∧
    qSuffixS "J1Q120" = some "120" ∧
    (exArea 1 1 "" ["J1Q120"]).barcodes.map Barcode.barcode = ["J1Q120"] := by
  decide

/-- Claim C2, counterexample: The code checks only the upper bound
`int(float(op_number)) <= 1000`: the input line `0 ZERO` produces an
operation numbered `0`, violating the claimed lower bound `1 ≤ n`. -/
theorem C2_counterexample :
    extract_operations [exArea 1 0 "0 ZERO" []] = [⟨"0", "ZERO", "", 1⟩] ∧
    ¬ (∀ op ∈ extract_operations [exArea 1 0 "0 ZERO" []],
        1 ≤ intPartOfNum op.op_number) := by
  exact ⟨by decide, by decide⟩

/-- Claim C4, counterexample: The final sort key is the truncated
`int(float(op_number))`, not the decimal value: `10.5` discovered before
`10` keeps its position (both keys are `10`), so the output is not sorted
ascending by decimal-aware numeric value. -/
theorem C4_counterexample :
    (extract_operations [exArea 1 0 "10.5 BBB" [], exArea 1 1 "10 AAA" []]).map
        Op.op_number = ["10.5", "10"] ∧
    decimalLt "10" "10.5" ∧
    ¬ ((extract_operations [exArea 1 0 "10.5 BBB" [], exArea 1 1 "10 AAA" []]).map
        Op.op_number).Pairwise decimalLe := by
  exact ⟨by decide, by decide, by decide⟩

/-! ## Infrastructure: the page-1 restriction commutes with the stable sort -/

theorem find?_and_filter {α : Type} (p q : α → Bool) (l : List α) :
    l.find? (fun a => p a && q a) = (l.filter p).find? q := by
  induction l with
  | nil => rfl
  | cons x xs ih =>
    by_cases hp : p x = true
    · by_cases hq : q x = true
      · rw [List.find?_cons_of_pos _ (by simp [hp, hq]),
          List.filter_cons_of_pos hp, List.find?_cons_of_pos _ hq]
      · rw [List.find?_cons_of_neg _ (by simp [hq]),
          List.filter_cons_of_pos hp, List.find?_cons_of_neg _ (by simp [hq]), ih]
    · rw [List.find?_cons_of_neg _ (by simp [hp]),
        List.filter_cons_of_neg (by simp [hp]), ih]

theorem idxLe_of_paLe (x z : Area) (hx : x.page = 1) (hz : z.page = 1)
    (h : paLe x z) : idxLe x z := by
  rcases h with h | ⟨_, h⟩
  · omega
  · exact h

theorem orderedInsert_idx_front (x : Area) (m : List Area)
    (hall : ∀ z ∈ m, idxLe x z) :
    List.orderedInsert idxLe x m = x :: m := by
  cases m with
  | nil => rfl
  | cons z zs =>
    rw [List.orderedInsert, if_pos (hall z (List.mem_cons_self z zs))]

theorem filter_orderedInsert_pa (x : Area) (l : List Area)
    (hs : l.Sorted paLe) :
    (List.orderedInsert paLe x l).filter (fun a => a.page == 1) =
      if x.page = 1 then
        List.orderedInsert idxLe x (l.filter (fun a => a.page == 1))
      else l.filter (fun a => a.page == 1) := by
  induction l with
  | nil =>
    by_cases hx : x.page = 1
    · simp [List.orderedInsert, hx]
    · simp [List.orderedInsert, hx]
  | cons y ys ih =>
    obtain ⟨hy, hys⟩ := List.sorted_cons.1 hs
    by_cases hxy : paLe x y
    · rw [List.orderedInsert, if_pos hxy]
      by_cases hx : x.page = 1
      · rw [if_pos hx, List.filter_cons_of_pos (by simp [hx])]
        have hall : ∀ z ∈ (y :: ys).filter (fun a => a.page == 1), idxLe x z := by
          intro z hz
          have hzmem := List.mem_filter.1 hz
          have hz1 : z.page = 1 := by simpa using hzmem.2
          have hpz : paLe x z := by
            rcases List.mem_cons.1 hzmem.1 with rfl | hzys
            · exact hxy
            · exact Trans.trans hxy (hy z hzys)
          exact idxLe_of_paLe x z hx hz1 hpz
        rw [orderedInsert_idx_front x _ hall]
      · rw [if_neg hx, List.filter_cons_of_neg (by simp [hx])]
    · rw [List.orderedInsert, if_neg hxy]
      by_cases hyp : y.page = 1
      · rw [List.filter_cons_of_pos (by simp [hyp]),
          List.filter_cons_of_pos (by simp [hyp]), ih hys]
        by_cases hx : x.page = 1
        · rw [if_pos hx, if_pos hx]
          have hnidx : ¬ idxLe x y := by
            intro hidx
            exact hxy (Or.inr ⟨hx.trans hyp.symm, hidx⟩)
          rw [List.orderedInsert, if_neg hnidx]
        · rw [if_neg hx, if_neg hx]
      · rw [List.filter_cons_of_neg (by simp [hyp]),
          List.filter_cons_of_neg (by simp [hyp]), ih hys]

theorem filter_sortPA (l : List Area) :
    (sortPA l).filter (fun a => a.page == 1) =
      sortIdx (l.filter (fun a => a.page == 1)) := by
  induction l with
  | nil => rfl
  | cons a t ih =>
    show (List.orderedInsert paLe a (sortPA t)).filter (fun a => a.page == 1) =
      sortIdx ((a :: t).filter (fun a => a.page == 1))
    rw [filter_orderedInsert_pa a (sortPA t) (List.sorted_insertionSort paLe t),
      ih]
    by_cases ha : a.page = 1
    · rw [if_pos ha, List.filter_cons_of_pos (by simp [ha])]
      rfl
    · rw [if_neg ha, List.filter_cons_of_neg (by simp [ha])]

/-- Claim C5: `extract_job_number` implements exactly the spec's policy: over
page-1 areas in ascending `area_index` order, return the first barcode
value of the first area whose trimmed text contains `Job No` and which has
a barcode; failing that, of the first area with any barcode; else `""`. -/
theorem C5_job_number_policy (areas : List Area) :
    extract_job_number areas = jobNumberSpec areas := by
  simp only [extract_job_number, jobNumberSpec]
  have h1 : (sortPA areas).find? (fun a =>
        a.page == 1 &&
          (containsL jobNoPat (pyStripL a.ocr_text.data) && !a.barcodes.isEmpty)) =
      ((sortPA areas).filter (fun a => a.page == 1)).find? (fun a =>
        containsL jobNoPat (pyStripL a.ocr_text.data) && !a.barcodes.isEmpty) :=
    find?_and_filter _ _ _
  have h2 : (sortPA areas).find? (fun a => a.page == 1 && !a.barcodes.isEmpty) =
      ((sortPA areas).filter (fun a => a.page == 1)).find? (fun a =>
        !a.barcodes.isEmpty) :=
    find?_and_filter _ _ _
  rw [h1, h2, filter_sortPA]

/-! ## Infrastructure: shape of the area-building loop -/

theorem foldl_skip_append {α β : Type} (p : α → Prop) [DecidablePred p]
    (f : α → β) :
    ∀ (l : List α) (acc : List β),
      l.foldl (fun acc x => if p x then acc else acc ++ [f x]) acc =
        acc ++ (l.filter (fun x => !decide (p x))).map f := by
  intro l
  induction l with
  | nil =>
    intro acc
    simp
  | cons x xs ih =>
    intro acc
    by_cases hx : p x
    · simp [hx, ih]
    · simp [hx, ih]

theorem buildAreas_eq (page : Nat) (lines : List Nat)
    (ocrF : Nat → Nat → String) (bcF : Nat → Nat → List Barcode) :
    buildAreas page lines ocrF bcF =
      (((lines.zip lines.tail).enum).filter
          (fun iyy => !decide (iyy.2.2 - iyy.2.1 < 50))).map
        (fun iyy => ⟨page + 1, iyy.1, (iyy.2.1, iyy.2.2),
          ocrF iyy.2.1 iyy.2.2, bcF iyy.2.1 iyy.2.2⟩) := by
  unfold buildAreas
  rw [foldl_skip_append (fun iyy : Nat × (Nat × Nat) => iyy.2.2 - iyy.2.1 < 50)]
  rfl

/-- Claim C6, amended: Bands below the 50-pixel minimum height are skipped
(no Area is emitted for them), but `area_index` is the raw boundary-slot
index, so the emitted areas of a page carry strictly increasing — not
necessarily consecutive — `area_index` values. -/
theorem C6_amended_raw_indices (page : Nat) (lines : List Nat)
    (ocrF : Nat → Nat → String) (bcF : Nat → Nat → List Barcode) :
    (∀ a ∈ buildAreas page lines ocrF bcF, 50 ≤ a.bbox.2 - a.bbox.1) ∧
    ((buildAreas page lines ocrF bcF).map Area.area_index).Pairwise (· < ·) := by
  constructor
  · intro a ha
    rw [buildAreas_eq] at ha
    rcases List.mem_map.1 ha with ⟨iyy, hin, rfl⟩
    have hf := (List.mem_filter.1 hin).2
    simp only [Bool.not_eq_true', decide_eq_false_iff_not] at hf
    exact Nat.le_of_not_lt hf
  · rw [buildAreas_eq, List.map_map]
    have hcomp : (Area.area_index ∘
        (fun iyy : Nat × (Nat × Nat) => (⟨page + 1, iyy.1, (iyy.2.1, iyy.2.2),
          ocrF iyy.2.1 iyy.2.2, bcF iyy.2.1 iyy.2.2⟩ : Area))) =
          (fun iyy : Nat × (Nat × Nat) => iyy.1) := rfl
    rw [hcomp, List.pairwise_map]
    have h1 : List.Pairwise (fun a b : Nat × (Nat × Nat) => a.1 < b.1)
        ((lines.zip lines.tail).enum) := by
      rw [← List.pairwise_map (f := Prod.fst)]
      rw [List.enum_map_fst]
      exact List.pairwise_lt_range _
    exact h1.filter _

/-- Witness for claim C6 (amended) at a concrete input. -/
theorem C6_witness :
    (⟨1, 1, (30, 800), "", []⟩ : Area) ∈
      buildAreas 0 [0, 30, 800] (fun _ _ => "") (fun _ _ => []) ∧
    50 ≤ (800 : Nat) - 30 :=
  ⟨by decide,
   (C6_amended_raw_indices 0 [0, 30, 800] (fun _ _ => "") (fun _ _ => [])).1
     ⟨1, 1, (30, 800), "", []⟩ (by decide)⟩

/-- Claim C6, counterexample: With boundaries `[0, 30, 800]` the first band
(height 30) is skipped, but the emitted area keeps the raw slot index `1`:
the emitted `area_index` values are not the consecutive positions
`0, 1, ...` among emitted areas that the claim states. -/
theorem C6_counterexample :
    (buildAreas 0 [0, 30, 800] (fun _ _ => "") (fun _ _ => [])).map
        Area.area_index = [1] ∧
    (buildAreas 0 [0, 30, 800] (fun _ _ => "") (fun _ _ => [])).map
        Area.area_index ≠
      List.range (buildAreas 0 [0, 30, 800] (fun _ _ => "") (fun _ _ => [])).length := by
  exact ⟨by decide, by decide⟩

/-! ## Infrastructure: the cleanup pipeline is the identity without a scan token -/

theorem dropLit_eq_some (p : List Char) (l r : List Char)
    (h : dropLit p l = some r) : l = p ++ r := by
  induction p generalizing l with
  | nil =>
    cases h
    rfl
  | cons x ps ih =>
    cases l with
    | nil => exact absurd h (by simp [dropLit])
    | cons c cs =>
      unfold dropLit at h
      by_cases hc : c == x
      · rw [if_pos hc] at h
        rw [List.cons_append, ← ih cs h]
        rw [eq_of_beq hc]
      · rw [if_neg hc] at h
        cases h

theorem core1At_scanTok (l : List Char) (h : core1At l = true) :
    scanTokAt l = true := by
  cases l with
  | nil => simp [core1At] at h
  | cons c rest =>
    unfold core1At at h
    rw [Bool.and_eq_true] at h
    obtain ⟨hc, h2⟩ := h
    cases hd : dropLit "can".data rest with
    | none =>
      rw [hd] at h2
      simp at h2
    | some r1 =>
      have he := dropLit_eq_some _ _ _ hd
      rw [show ("can".data : List Char) = ['c', 'a', 'n'] from rfl] at he
      rw [he]
      simpa [scanTokAt] using hc

theorem core2At_scanTok (l : List Char) (h : core2At l = true) :
    scanTokAt l = true := by
  cases l with
  | nil => simp [core2At] at h
  | cons c rest =>
    unfold core2At at h
    rw [Bool.and_eq_true] at h
    obtain ⟨hc, h2⟩ := h
    cases hd : dropLit "can-barcodes-".data rest with
    | none =>
      rw [hd] at h2
      simp at h2
    | some r1 =>
      have he := dropLit_eq_some _ _ _ hd
      rw [show ("can-barcodes-".data : List Char) =
        'c' :: 'a' :: 'n' :: "-barcodes-".data from rfl] at he
      rw [he]
      simpa [scanTokAt] using hc

theorem findCore_none_of (p q : List Char → Bool)
    (hmono : ∀ l', q l' = true → p l' = true) :
    ∀ l : List Char, findCore p l = none → findCore q l = none := by
  intro l
  induction l with
  | nil =>
    intro h
    unfold findCore at h ⊢
    by_cases hq : q [] = true
    · rw [hmono [] hq] at h
      simp at h
    · simp [hq]
  | cons x xs ih =>
    intro h
    unfold findCore at h ⊢
    by_cases hp : p (x :: xs) = true
    · rw [hp] at h
      simp at h
    · have hq : ¬ q (x :: xs) = true := fun hqq => hp (hmono _ hqq)
      rw [if_neg hp, Option.map_eq_none'] at h
      rw [if_neg hq, Option.map_eq_none']
      exact ih h

theorem sub1_of_none (l : List Char) (h : findCore core1At l = none) :
    sub1 l = l := by
  unfold sub1
  rw [h]

theorem sub2_of_none (l : List Char) (h : findCore core2At l = none) :
    sub2 l = l := by
  unfold sub2
  rw [h]

theorem sub3_of_none (l : List Char) (h : findCore scanTokAt l = none) :
    sub3 l = l := by
  unfold sub3
  rw [h]

/-- Claim C7, amended: `clean_operation_name` strips, in order, a leading
`20dd` year token, then trailing scan-instruction phrases matched with
lowercase literals except that the initial letter of `scan` may be `s` or
`S` (not case-insensitively), then any trailing fragment beginning with
`scan`/`Scan`, and trims whitespace last; the claim's three concrete
examples hold, and a name containing no `[sS]can` token and no leading year
token is only trimmed. -/
theorem C7_amended_cleanup :
    clean_operation_name "2022 Operation Name" = "Operation Name" ∧
    clean_operation_name "Operation Name Scan barcodes to start job operation" =
      "Operation Name" ∧
    clean_operation_name "Operation Name ~Scan-barcodes-to-start-job operation" =
      "Operation Name" ∧
    ∀ s : String, findCore scanTokAt s.data = none →
      dropYearToken s.data = s.data →
      clean_operation_name s = pyStrip s := by
  refine ⟨by decide, by decide, by decide, ?_⟩
  intro s hscan hyear
  unfold clean_operation_name pyStrip
  rw [hyear, sub1_of_none _ (findCore_none_of _ _ core1At_scanTok _ hscan),
    sub2_of_none _ (findCore_none_of _ _ core2At_scanTok _ hscan),
    sub3_of_none _ hscan]

/-- Witness for claim C7 (amended) at a concrete input. -/
theorem C7_witness :
    findCore scanTokAt "Final Assembly".data = none ∧
    dropYearToken "Final Assembly".data = "Final Assembly".data ∧
    clean_operation_name "Final Assembly" = pyStrip "Final Assembly" :=
  ⟨by decide, by decide,
   C7_amended_cleanup.2.2.2 "Final Assembly" (by decide) (by decide)⟩

/-- Claim C7, counterexample: The scan-instruction patterns are not
case-insensitive: only the initial letter of `scan` may be capitalized
(`[sS]can` with lowercase literals elsewhere), so the upper-case variant
`SCAN barcodes ...` is not stripped, contradicting the claimed
case-insensitive stripping. -/
theorem C7_counterexample :
    clean_operation_name "Operation Name SCAN barcodes to start job operation" =
      "Operation Name SCAN barcodes to start job operation" ∧
    clean_operation_name "Operation Name SCAN barcodes to start job operation" ≠
      "Operation Name" := by
  exact ⟨by decide, by decide⟩

end JobCard

